import Mathlib

/-!
Verification of `pydbm/loss/mean_squared_error.pyx` (class `MeanSquaredError`).

Arrays are modelled as 2-D arrays over the reals: a `List (List ℝ)` whose
leading dimension (the list length) is the batch size.  The numpy operations
used by the source (`-`, `/` by a scalar, `np.linalg.norm`, `np.square`,
`.mean(axis=...)`, `+=`) are embedded below; the three methods of the class
are translated line by line from the source.  Division by the batch size is
guarded: the methods return `none` when the leading dimension is zero.
-/

namespace MSE

/-- A 2-D numeric array: list of rows of reals. -/
abbrev Arr := List (List ℝ)

/-- Shape of a 2-D array: list of row lengths (the leading dimension is the
list length itself). -/
def shapeOf (a : Arr) : List Nat := a.map List.length

/-- Elementwise unary map over a 2-D array. -/
def map2 (f : ℝ → ℝ) (a : Arr) : Arr := a.map (List.map f)

/-- Elementwise binary operation over two 2-D arrays (numpy broadcasting of
two same-shaped arrays). -/
def zipWith2 (f : ℝ → ℝ → ℝ) (a b : Arr) : Arr := List.zipWith (List.zipWith f) a b

/-- Elementwise subtraction `a - b`. -/
def sub (a b : Arr) : Arr := zipWith2 (fun x y => x - y) a b

/-- Elementwise addition `a + b` (numpy `+=`). -/
def addA (a b : Arr) : Arr := zipWith2 (fun x y => x + y) a b

/-- Sum of the squares of all elements of the array. -/
def sumsq (a : Arr) : ℝ := (a.map (fun r => (r.map (fun x => x ^ 2)).sum)).sum

/-- Frobenius norm, `np.linalg.norm` on a 2-D array: the square root of the
sum of squared elements. -/
noncomputable def norm (a : Arr) : ℝ := Real.sqrt (sumsq a)

/-- Total number of elements of the array. -/
def totalCount (a : Arr) : Nat := (a.map List.length).sum

/-- Mean over all elements (`.mean()` with no axis). -/
noncomputable def meanAll (a : Arr) : ℝ := (a.map List.sum).sum / (totalCount a : ℝ)

/-- Mean along axis 0 (column means, divided by the number of rows). -/
noncomputable def meanAxis0 (a : Arr) : List ℝ :=
  (List.transpose a).map (fun c => c.sum / (a.length : ℝ))

/-- Mean along axis 1 (row means). -/
noncomputable def meanAxis1 (a : Arr) : List ℝ := a.map (fun r => r.sum / (r.length : ℝ))

/-- Result of `.mean(axis=axis)`: a scalar when `axis` is `None`, an array
otherwise. -/
inductive Out where
  | scalar : ℝ → Out
  | arr : List ℝ → Out

/-- numpy `.mean(axis=axis)` on a 2-D array. -/
noncomputable def npMean (axis : Option (Fin 2)) (a : Arr) : Out :=
  match axis with
  | none => Out.scalar (meanAll a)
  | some i => if i = (0 : Fin 2) then Out.arr (meanAxis0 a) else Out.arr (meanAxis1 a)

/-- State of a `MeanSquaredError` object: the clip threshold fixed at
construction and the externally settable `penalty_arr` field. -/
structure MeanSquaredError where
  grad_clip_threshold : ℝ
  penalty_arr : Option Arr

/-- Addition of the optional `penalty_arr` (the `if self.penalty_arr is not
None` branch shared by `compute_loss` and `compute_delta`). -/
def addPenalty (p : Option Arr) (a : Arr) : Arr :=
  match p with
  | none => a
  | some q => addA a q

/-- Raw difference of `compute_loss`:
`diff_arr = (labeled_arr - pred_arr) / batch_size`. -/
noncomputable def loss_diff (pred_arr labeled_arr : Arr) : Arr :=
  map2 (fun x => x / (labeled_arr.length : ℝ)) (sub labeled_arr pred_arr)

/-- Clipping step of `compute_loss`:
`if v > threshold: diff_arr = diff_arr * threshold / v` with `v = norm(diff_arr)`. -/
noncomputable def loss_clip (t : ℝ) (d : Arr) : Arr :=
  if t < norm d then map2 (fun x => x * t / norm d) d else d

/-- Raw delta of `compute_delta`:
`delta_arr = (pred_arr - labeled_arr) / batch_size * delta_output`. -/
noncomputable def delta_diff (pred_arr labeled_arr : Arr) (delta_output : ℝ) : Arr :=
  map2 (fun x => x / (labeled_arr.length : ℝ) * delta_output) (sub pred_arr labeled_arr)

/-- Clipping step of `compute_delta`:
`if v > threshold: delta_arr = delta_arr * threshold / v` with `v = norm(delta_arr)`. -/
noncomputable def delta_clip (t : ℝ) (d : Arr) : Arr :=
  if t < norm d then map2 (fun x => x * t / norm d) d else d

/-- `MeanSquaredError.compute_loss`: difference, clip, penalty, then the mean
of the squared elements over the requested axis.  The division by
`batch_size` is guarded: `none` when the leading dimension of
`labeled_arr` is zero. -/
noncomputable def compute_loss (m : MeanSquaredError) (pred_arr labeled_arr : Arr)
    (axis : Option (Fin 2)) : Option Out :=
  if labeled_arr.length = 0 then none
  else
    some (npMean axis
      (map2 (fun x => x ^ 2)
        (addPenalty m.penalty_arr
          (loss_clip m.grad_clip_threshold (loss_diff pred_arr labeled_arr)))))

/-- `MeanSquaredError.compute_delta`: delta, clip, penalty.  The division by
`batch_size` is guarded: `none` when the leading dimension of
`labeled_arr` is zero. -/
noncomputable def compute_delta (m : MeanSquaredError) (pred_arr labeled_arr : Arr)
    (delta_output : ℝ) : Option Arr :=
  if labeled_arr.length = 0 then none
  else
    some (addPenalty m.penalty_arr
      (delta_clip m.grad_clip_threshold (delta_diff pred_arr labeled_arr delta_output)))

/-- `MeanSquaredError.reverse_delta`:
`delta_arr = delta_arr * (batch_size * delta_output) + labeled_arr`. -/
noncomputable def reverse_delta (_m : MeanSquaredError) (delta_arr labeled_arr : Arr)
    (delta_output : ℝ) : Arr :=
  addA (map2 (fun x => x * ((labeled_arr.length : ℝ) * delta_output)) delta_arr) labeled_arr

/-- Scalar multiple of an array. -/
def smul (c : ℝ) (a : Arr) : Arr := map2 (fun x => c * x) a

/-- Two arrays have the same shape. -/
def sameShape (a b : Arr) : Prop := shapeOf a = shapeOf b

instance (a b : Arr) : Decidable (sameShape a b) := by
  unfold sameShape; infer_instance

/-- Array of zeros with the shape of `a`. -/
def zerosLike (a : Arr) : Arr := map2 (fun _ => 0) a

/-- Scaling factor of the gradient clipping, as the spec words it:
`threshold / norm` whenever `norm > threshold`, else `1`. -/
noncomputable def clipFactor (t v : ℝ) : ℝ := if t < v then t / v else 1

/-- Clipping as the spec words it: when the norm exceeds the threshold, the
array is rescaled by the scalar `threshold / norm`. -/
noncomputable def specClip (t : ℝ) (d : Arr) : Arr :=
  if t < norm d then smul (t / norm d) d else d

/-- Value of `compute_loss` as the spec words it: diff, rescale, penalty,
mean of squares over the axis. -/
noncomputable def specLoss (t : ℝ) (p : Option Arr) (pred_arr labeled_arr : Arr)
    (axis : Option (Fin 2)) : Out :=
  npMean axis (map2 (fun x => x ^ 2)
    (addPenalty p (specClip t (smul (1 / (labeled_arr.length : ℝ)) (sub labeled_arr pred_arr)))))

/-- Value of `compute_delta` as the spec words it: delta, the same rescaling,
penalty. -/
noncomputable def specDelta (t : ℝ) (p : Option Arr) (pred_arr labeled_arr : Arr)
    (delta_output : ℝ) : Arr :=
  addPenalty p
    (specClip t (smul (delta_output / (labeled_arr.length : ℝ)) (sub pred_arr labeled_arr)))

/-- Value of `reverse_delta` as the spec words it:
`delta * (batch_size * delta_output) + labeled`. -/
noncomputable def specReverse (delta_arr labeled_arr : Arr) (delta_output : ℝ) : Arr :=
  addA (smul ((labeled_arr.length : ℝ) * delta_output) delta_arr) labeled_arr

/-! Helper lemmas about the array primitives. -/

lemma map2_congr {f g : ℝ → ℝ} (h : ∀ x, f x = g x) (a : Arr) : map2 f a = map2 g a := by
  have hfg : f = g := funext h
  rw [map2, map2, hfg]

lemma map2_id (a : Arr) : map2 (fun x => x) a = a := by
  simp [map2]

lemma sumsq_nonneg (a : Arr) : 0 ≤ sumsq a := by
  refine List.sum_nonneg ?_
  intro x hx
  obtain ⟨r, _, rfl⟩ := List.mem_map.mp hx
  refine List.sum_nonneg ?_
  intro y hy
  obtain ⟨z, _, rfl⟩ := List.mem_map.mp hy
  positivity

lemma norm_nonneg (a : Arr) : 0 ≤ norm a := Real.sqrt_nonneg _

lemma sum_sq_map_mul (c : ℝ) (r : List ℝ) :
    ((r.map fun x => x * c).map fun x => x ^ 2).sum = ((r.map fun x => x ^ 2).sum) * c ^ 2 := by
  rw [List.map_map, ← List.sum_map_mul_right]
  congr 1
  refine List.map_congr_left ?_
  intro x _
  simp [Function.comp, mul_pow]

lemma sumsq_map2_mul (c : ℝ) (a : Arr) :
    sumsq (map2 (fun x => x * c) a) = sumsq a * c ^ 2 := by
  rw [sumsq, sumsq, map2, List.map_map, ← List.sum_map_mul_right]
  congr 1
  refine List.map_congr_left ?_
  intro r _
  exact sum_sq_map_mul c r

lemma norm_map2_mul {c : ℝ} (hc : 0 ≤ c) (a : Arr) :
    norm (map2 (fun x => x * c) a) = norm a * c := by
  rw [norm, norm, sumsq_map2_mul, Real.sqrt_mul (sumsq_nonneg a), Real.sqrt_sq hc]

lemma loss_clip_eq_smul (t : ℝ) (d : Arr) :
    loss_clip t d = smul (clipFactor t (norm d)) d := by
  rw [loss_clip, clipFactor, smul]
  by_cases h : t < norm d
  · rw [if_pos h, if_pos h]
    exact map2_congr (fun x => by ring) d
  · rw [if_neg h, if_neg h]
    exact (map2_congr (fun x => (one_mul x).symm) d).symm ▸ (map2_id d).symm ▸ rfl

lemma delta_clip_eq_loss_clip : delta_clip = loss_clip := rfl

lemma norm_loss_clip_le {t : ℝ} (ht : 0 ≤ t) (d : Arr) : norm (loss_clip t d) ≤ t := by
  rw [loss_clip]
  by_cases h : t < norm d
  · rw [if_pos h]
    have hv : (0 : ℝ) < norm d := lt_of_le_of_lt ht h
    have hc : 0 ≤ t / norm d := div_nonneg ht hv.le
    have heq : map2 (fun x => x * t / norm d) d = map2 (fun x => x * (t / norm d)) d :=
      map2_congr (fun x => by ring) d
    rw [heq, norm_map2_mul hc]
    rw [mul_comm, div_mul_cancel₀ t hv.ne']
  · rw [if_neg h]
    exact le_of_not_lt h

lemma norm_loss_clip_eq {t : ℝ} (ht : 0 ≤ t) {d : Arr} (h : t < norm d) :
    norm (loss_clip t d) = t := by
  rw [loss_clip, if_pos h]
  have hv : (0 : ℝ) < norm d := lt_of_le_of_lt ht h
  have hc : 0 ≤ t / norm d := div_nonneg ht hv.le
  have heq : map2 (fun x => x * t / norm d) d = map2 (fun x => x * (t / norm d)) d :=
    map2_congr (fun x => by ring) d
  rw [heq, norm_map2_mul hc, mul_comm, div_mul_cancel₀ t hv.ne']

lemma map2_map2 (f g : ℝ → ℝ) (a : Arr) :
    map2 f (map2 g a) = map2 (fun x => f (g x)) a := by
  simp [map2, List.map_map, Function.comp]

lemma loss_clip_eq_specClip (t : ℝ) (d : Arr) : loss_clip t d = specClip t d := by
  rw [loss_clip, specClip, smul]
  by_cases h : t < norm d
  · rw [if_pos h, if_pos h]
    exact map2_congr (fun x => by ring) d
  · rw [if_neg h, if_neg h]

lemma loss_diff_eq_smul (pred_arr labeled_arr : Arr) :
    loss_diff pred_arr labeled_arr =
      smul (1 / (labeled_arr.length : ℝ)) (sub labeled_arr pred_arr) := by
  rw [loss_diff, smul]
  exact map2_congr (fun x => by ring) _

lemma delta_diff_eq_smul (pred_arr labeled_arr : Arr) (c : ℝ) :
    delta_diff pred_arr labeled_arr c =
      smul (c / (labeled_arr.length : ℝ)) (sub pred_arr labeled_arr) := by
  rw [delta_diff, smul]
  exact map2_congr (fun x => by ring) _

/-! Shape lemmas. -/

lemma shapeOf_map2 (f : ℝ → ℝ) (a : Arr) : shapeOf (map2 f a) = shapeOf a := by
  simp [shapeOf, map2, List.map_map, Function.comp]

lemma shapeOf_zipWith2 (f : ℝ → ℝ → ℝ) :
    ∀ (a b : Arr), shapeOf a = shapeOf b → shapeOf (zipWith2 f a b) = shapeOf a := by
  intro a
  induction a with
  | nil => intro b _; simp [zipWith2, shapeOf]
  | cons r a ih =>
    intro b hb
    cases b with
    | nil => simp [shapeOf] at hb
    | cons s b =>
      simp only [shapeOf, List.map_cons, List.cons.injEq] at hb
      simp only [zipWith2, List.zipWith_cons_cons, shapeOf, List.map_cons, List.cons.injEq]
      constructor
      · rw [List.length_zipWith, hb.1, min_self]
      · exact ih b hb.2

lemma shapeOf_loss_clip (t : ℝ) (d : Arr) : shapeOf (loss_clip t d) = shapeOf d := by
  rw [loss_clip]
  by_cases h : t < norm d
  · rw [if_pos h, shapeOf_map2]
  · rw [if_neg h]

lemma shapeOf_addPenalty (p : Option Arr) (a : Arr)
    (hp : ∀ q ∈ p, shapeOf q = shapeOf a) : shapeOf (addPenalty p a) = shapeOf a := by
  cases p with
  | none => rfl
  | some q => exact shapeOf_zipWith2 _ a q ((hp q rfl).symm)

/-! The claims. -/

/-- C1.  `compute_loss` computes `diff = (labeled - pred) / batch_size`,
rescales `diff` to norm exactly the grad-clip threshold when its norm exceeds
the threshold, adds `penalty_arr` when set, and returns the mean of the
squared elements over the given axis (over all elements when the axis is
`none`) — i.e. it refines the spec-side `specLoss`. -/
theorem claim1_compute_loss_follows_spec (m : MeanSquaredError) (pred_arr labeled_arr : Arr)
    (axis : Option (Fin 2)) (hshape : sameShape pred_arr labeled_arr)
    (hb : 0 < labeled_arr.length) :
    compute_loss m pred_arr labeled_arr axis =
      some (specLoss m.grad_clip_threshold m.penalty_arr pred_arr labeled_arr axis) := by
  rw [compute_loss, if_neg hb.ne', specLoss, ← loss_diff_eq_smul, ← loss_clip_eq_specClip]

/-- Witness for C1 at a concrete input. -/
theorem claim1_witness :
    sameShape [[(1 : ℝ)]] [[0]] ∧ 0 < ([[(0 : ℝ)]] : Arr).length ∧
    compute_loss ⟨10, none⟩ [[(1 : ℝ)]] [[0]] none = some (specLoss 10 none [[(1 : ℝ)]] [[0]] none) := by
  refine ⟨by decide, by decide, ?_⟩
  exact claim1_compute_loss_follows_spec ⟨10, none⟩ [[(1 : ℝ)]] [[0]] none (by decide) (by decide)

/-- C2.  `compute_delta` computes `delta = (pred - labeled) / batch_size *
delta_output`, applies the same norm-based rescaling, adds `penalty_arr` when
set, and returns a delta array of the same shape as the inputs — i.e. it
refines the spec-side `specDelta` and preserves shape. -/
theorem claim2_compute_delta_follows_spec (m : MeanSquaredError) (pred_arr labeled_arr : Arr)
    (delta_output : ℝ) (hshape : sameShape pred_arr labeled_arr)
    (hb : 0 < labeled_arr.length)
    (hp : ∀ q ∈ m.penalty_arr, sameShape q labeled_arr) :
    compute_delta m pred_arr labeled_arr delta_output =
      some (specDelta m.grad_clip_threshold m.penalty_arr pred_arr labeled_arr delta_output) ∧
    ∀ d, compute_delta m pred_arr labeled_arr delta_output = some d →
      sameShape d pred_arr := by
  have hmain : compute_delta m pred_arr labeled_arr delta_output =
      some (addPenalty m.penalty_arr
        (delta_clip m.grad_clip_threshold (delta_diff pred_arr labeled_arr delta_output))) := by
    rw [compute_delta, if_neg hb.ne']
  constructor
  · rw [hmain, specDelta, ← delta_diff_eq_smul, delta_clip_eq_loss_clip,
      ← loss_clip_eq_specClip]
  · intro d hd
    rw [hmain] at hd
    have hd' := Option.some.inj hd
    subst hd'
    have h1 : shapeOf (delta_diff pred_arr labeled_arr delta_output) = shapeOf pred_arr := by
      rw [delta_diff, shapeOf_map2, sub, shapeOf_zipWith2 _ _ _ hshape]
    have h2 : shapeOf (delta_clip m.grad_clip_threshold
        (delta_diff pred_arr labeled_arr delta_output)) = shapeOf pred_arr := by
      rw [delta_clip_eq_loss_clip, shapeOf_loss_clip, h1]
    rw [sameShape, shapeOf_addPenalty, h2]
    intro q hq
    rw [h2]
    exact (hp q hq).trans hshape.symm

/-- Witness for C2 at a concrete input. -/
theorem claim2_witness :
    sameShape [[(1 : ℝ)]] [[0]] ∧
    compute_delta ⟨10, none⟩ [[(1 : ℝ)]] [[0]] 1 =
      some (specDelta 10 none [[(1 : ℝ)]] [[0]] 1) := by
  refine ⟨by decide, ?_⟩
  exact (claim2_compute_delta_follows_spec ⟨10, none⟩ [[(1 : ℝ)]] [[0]] 1 (by decide)
    (by decide) (by intro q hq; cases hq)).1

/-- C3.  The clipping applied by `compute_delta` is identical to the one
applied by `compute_loss`: both multiply the raw difference by the scalar
factor `threshold / norm` when the norm exceeds the threshold (rescaling it to
norm exactly the threshold while preserving direction) and by `1` otherwise,
and the factor is a function of the raw difference alone. -/
theorem claim3_identical_clipping (t : ℝ) (ht : 0 ≤ t) (d : Arr) :
    delta_clip t d = loss_clip t d ∧
    loss_clip t d = smul (clipFactor t (norm d)) d ∧
    (t < norm d → clipFactor t (norm d) = t / norm d ∧ norm (loss_clip t d) = t) ∧
    (norm d ≤ t → clipFactor t (norm d) = 1 ∧ loss_clip t d = d) := by
  refine ⟨rfl, loss_clip_eq_smul t d, ?_, ?_⟩
  · intro h
    exact ⟨if_pos h, norm_loss_clip_eq ht h⟩
  · intro h
    have h' := not_lt.mpr h
    exact ⟨if_neg h', by rw [loss_clip, if_neg h']⟩

/-- Witness for C3 at a concrete input. -/
theorem claim3_witness :
    0 ≤ (1 : ℝ) ∧
    (delta_clip 1 [[(0 : ℝ)]] = loss_clip 1 [[(0 : ℝ)]] ∧
     loss_clip 1 [[(0 : ℝ)]] = smul (clipFactor 1 (norm [[(0 : ℝ)]])) [[(0 : ℝ)]] ∧
     (1 < norm [[(0 : ℝ)]] →
       clipFactor 1 (norm [[(0 : ℝ)]]) = 1 / norm [[(0 : ℝ)]] ∧
       norm (loss_clip 1 [[(0 : ℝ)]]) = 1) ∧
     (norm [[(0 : ℝ)]] ≤ 1 →
       clipFactor 1 (norm [[(0 : ℝ)]]) = 1 ∧ loss_clip 1 [[(0 : ℝ)]] = [[(0 : ℝ)]])) :=
  ⟨by norm_num, claim3_identical_clipping 1 (by norm_num) [[(0 : ℝ)]]⟩

/-- C4 counterexample: with `penalty_arr` set, the array returned by
`compute_delta` can have norm strictly above the threshold, so the claim as
stated (a norm bound for any `penalty_arr` state) is false. -/
theorem claim4_counterexample :
    ∃ d, compute_delta ⟨1, some [[(10 : ℝ)]]⟩ [[(0 : ℝ)]] [[(0 : ℝ)]] 1 = some d ∧
      ¬ norm d ≤ (1 : ℝ) := by
  refine ⟨[[(10 : ℝ)]], ?_, ?_⟩
  · norm_num [compute_delta, delta_diff, delta_clip, addPenalty, addA, sub, zipWith2,
      map2, norm, sumsq, Real.sqrt_zero]
  · have h10 : norm [[(10 : ℝ)]] = 10 := by
      rw [norm]
      norm_num [sumsq]
      rw [show (100 : ℝ) = 10 ^ 2 by norm_num, Real.sqrt_sq (by norm_num : (0 : ℝ) ≤ 10)]
    rw [h10]
    norm_num

/-- C4 amended: when `penalty_arr` is `None` (and the threshold is
nonnegative, as the default is), the L2 norm of the array returned by
`compute_delta` and of the clipped difference that `compute_loss` squares is
at most the grad-clip threshold fixed at construction. -/
theorem claim4_amended_norm_bounded (t : ℝ) (ht : 0 ≤ t) (pred_arr labeled_arr : Arr)
    (delta_output : ℝ) (hb : 0 < labeled_arr.length) :
    (∃ d, compute_delta ⟨t, none⟩ pred_arr labeled_arr delta_output = some d ∧ norm d ≤ t) ∧
    norm (loss_clip t (loss_diff pred_arr labeled_arr)) ≤ t := by
  refine ⟨⟨delta_clip t (delta_diff pred_arr labeled_arr delta_output), ?_, ?_⟩, ?_⟩
  · rw [compute_delta, if_neg hb.ne']
    rfl
  · rw [delta_clip_eq_loss_clip]
    exact norm_loss_clip_le ht _
  · exact norm_loss_clip_le ht _

/-- Witness for the amended C4 at a concrete input. -/
theorem claim4_witness :
    0 ≤ (1 : ℝ) ∧ 0 < ([[(0 : ℝ)]] : Arr).length ∧
    ((∃ d, compute_delta ⟨1, none⟩ [[(0 : ℝ)]] [[(0 : ℝ)]] 1 = some d ∧ norm d ≤ 1) ∧
     norm (loss_clip 1 (loss_diff [[(0 : ℝ)]] [[(0 : ℝ)]])) ≤ 1) :=
  ⟨by norm_num, by decide,
    claim4_amended_norm_bounded 1 (by norm_num) [[(0 : ℝ)]] [[(0 : ℝ)]] 1 (by decide)⟩

/-- C5.  `reverse_delta` returns exactly
`delta * (batch_size * delta_output) + labeled`, independent of the clip
threshold and of the `penalty_arr` state (no clipping, no penalty added). -/
theorem claim5_reverse_delta_formula (m : MeanSquaredError) (delta_arr labeled_arr : Arr)
    (delta_output : ℝ) :
    reverse_delta m delta_arr labeled_arr delta_output =
      specReverse delta_arr labeled_arr delta_output ∧
    ∀ m2 : MeanSquaredError,
      reverse_delta m delta_arr labeled_arr delta_output =
        reverse_delta m2 delta_arr labeled_arr delta_output := by
  constructor
  · rw [reverse_delta, specReverse, smul]
    exact congrArg (fun z => addA z labeled_arr) (map2_congr (fun x => by ring) _)
  · intro m2
    rfl

/-- C6.  `reverse_delta` is not in general a left inverse of `compute_delta`:
at a concrete input with `penalty_arr` set, the round trip does not recover
`pred_arr`. -/
theorem claim6_not_left_inverse :
    ∃ (m : MeanSquaredError) (pred_arr labeled_arr : Arr) (delta_output : ℝ) (d : Arr),
      sameShape pred_arr labeled_arr ∧ 0 < labeled_arr.length ∧
      compute_delta m pred_arr labeled_arr delta_output = some d ∧
      reverse_delta m d labeled_arr delta_output ≠ pred_arr := by
  refine ⟨⟨1, some [[(5 : ℝ)]]⟩, [[(0 : ℝ)]], [[(0 : ℝ)]], 1, [[(5 : ℝ)]],
    by decide, by decide, ?_, ?_⟩
  · norm_num [compute_delta, delta_diff, delta_clip, addPenalty, addA, sub, zipWith2,
      map2, norm, sumsq, Real.sqrt_zero]
  · norm_num [reverse_delta, addA, zipWith2, map2]

/-! Lemmas about arrays of zeros, for C7. -/

lemma zipWith_same (f : ℝ → ℝ → ℝ) (r : List ℝ) :
    List.zipWith f r r = r.map (fun x => f x x) := by
  induction r with
  | nil => rfl
  | cons x r ih => simp [List.zipWith_cons_cons, ih]

lemma zipWith2_same (f : ℝ → ℝ → ℝ) (a : Arr) :
    zipWith2 f a a = map2 (fun x => f x x) a := by
  induction a with
  | nil => rfl
  | cons r a ih =>
    simp only [zipWith2, map2, List.zipWith_cons_cons, List.map_cons, List.cons.injEq]
    exact ⟨zipWith_same f r, ih⟩

lemma map2_zerosLike (f : ℝ → ℝ) (hf : f 0 = 0) (a : Arr) :
    map2 f (zerosLike a) = zerosLike a := by
  rw [zerosLike, map2_map2]
  exact map2_congr (fun x => hf) a

lemma sub_self_eq_zerosLike (a : Arr) : sub a a = zerosLike a := by
  rw [sub, zipWith2_same, zerosLike]
  exact map2_congr (fun x => sub_self x) a

lemma sum_map_zero {α : Type} (l : List α) : (l.map (fun _ => (0 : ℝ))).sum = 0 := by
  induction l with
  | nil => rfl
  | cons x l ih => simp [ih]

lemma sumsq_cons (r : List ℝ) (b : Arr) :
    sumsq (r :: b) = (r.map (fun x => x ^ 2)).sum + sumsq b := by
  simp [sumsq]

lemma zerosLike_cons (r : List ℝ) (b : Arr) :
    zerosLike (r :: b) = (r.map fun _ => (0 : ℝ)) :: zerosLike b := rfl

lemma sumsq_zerosLike (a : Arr) : sumsq (zerosLike a) = 0 := by
  induction a with
  | nil => rfl
  | cons r b ih =>
    rw [zerosLike_cons, sumsq_cons, ih, add_zero, List.map_map]
    have hfun : ((fun x => x ^ 2) ∘ fun _ : ℝ => (0 : ℝ)) = fun _ : ℝ => (0 : ℝ) := by
      funext x
      norm_num
    rw [hfun, sum_map_zero]

lemma norm_zerosLike (a : Arr) : norm (zerosLike a) = 0 := by
  rw [norm, sumsq_zerosLike, Real.sqrt_zero]

lemma loss_clip_zerosLike (t : ℝ) (a : Arr) :
    loss_clip t (zerosLike a) = zerosLike a := by
  rw [loss_clip]
  by_cases h : t < norm (zerosLike a)
  · rw [if_pos h]
    exact map2_zerosLike _ (by simp) a
  · rw [if_neg h]

lemma meanAll_zerosLike (a : Arr) : meanAll (zerosLike a) = 0 := by
  rw [meanAll, zerosLike, map2, List.map_map]
  have h : ∀ r ∈ a, (List.sum ∘ List.map (fun _ => (0 : ℝ))) r = 0 := by
    intro r _
    exact sum_map_zero r
  rw [List.map_congr_left h, sum_map_zero, zero_div]

lemma loss_diff_self (a : Arr) : loss_diff a a = zerosLike a := by
  rw [loss_diff, sub_self_eq_zerosLike]
  exact map2_zerosLike _ (by simp) a

/-- C7 counterexample: with `penalty_arr` set, `compute_loss` on equal arrays
is not zero (the penalty is added after the zero difference), so the claim as
stated (zero loss regardless of the `penalty_arr` state) is false. -/
theorem claim7_counterexample :
    compute_loss ⟨1, some [[(3 : ℝ)]]⟩ [[(0 : ℝ)]] [[(0 : ℝ)]] none ≠
      some (Out.scalar 0) := by
  have hval : compute_loss ⟨1, some [[(3 : ℝ)]]⟩ [[(0 : ℝ)]] [[(0 : ℝ)]] none =
      some (Out.scalar 9) := by
    norm_num [compute_loss, loss_diff, loss_clip, addPenalty, addA, sub, zipWith2,
      map2, norm, sumsq, Real.sqrt_zero, npMean, meanAll, totalCount]
  rw [hval]
  intro h
  have h9 := Option.some.inj h
  have : (9 : ℝ) = 0 := by injection h9
  norm_num at this

/-- C7 amended: when `penalty_arr` is `None`, `compute_loss` on equal arrays
returns the mean of an all-zero array along any axis — in particular the
scalar `0` when no axis is given. -/
theorem claim7_amended_loss_zero (t : ℝ) (a : Arr) (hb : 0 < a.length)
    (axis : Option (Fin 2)) :
    compute_loss ⟨t, none⟩ a a axis = some (npMean axis (zerosLike a)) ∧
    compute_loss ⟨t, none⟩ a a none = some (Out.scalar 0) := by
  have key : ∀ ax : Option (Fin 2),
      compute_loss ⟨t, none⟩ a a ax = some (npMean ax (zerosLike a)) := by
    intro ax
    rw [compute_loss, if_neg hb.ne']
    have hinner : addPenalty none (loss_clip t (loss_diff a a)) = zerosLike a := by
      rw [loss_diff_self, loss_clip_zerosLike]
      rfl
    rw [hinner, map2_zerosLike _ (by norm_num) a]
  refine ⟨key axis, ?_⟩
  rw [key none]
  have : npMean none (zerosLike a) = Out.scalar (meanAll (zerosLike a)) := rfl
  rw [this, meanAll_zerosLike]

/-- Witness for the amended C7 at a concrete input. -/
theorem claim7_witness :
    0 < ([[(0 : ℝ)]] : Arr).length ∧
    (compute_loss ⟨5, none⟩ [[(0 : ℝ)]] [[(0 : ℝ)]] none =
       some (npMean none (zerosLike [[(0 : ℝ)]])) ∧
     compute_loss ⟨5, none⟩ [[(0 : ℝ)]] [[(0 : ℝ)]] none = some (Out.scalar 0)) :=
  ⟨by decide, claim7_amended_loss_zero 5 [[(0 : ℝ)]] (by decide) none⟩

/-- C8 counterexample: `reverse_delta` ignores `penalty_arr`: at a concrete
input with `penalty_arr` set, its result equals the no-penalty result and is
not the penalty-incorporating value, so the claim as stated (the penalty is
incorporated into every computed delta, `reverse_delta` included) is false. -/
theorem claim8_counterexample :
    reverse_delta ⟨1, some [[(1 : ℝ)]]⟩ [[(0 : ℝ)]] [[(0 : ℝ)]] 1 =
      reverse_delta ⟨1, none⟩ [[(0 : ℝ)]] [[(0 : ℝ)]] 1 ∧
    reverse_delta ⟨1, some [[(1 : ℝ)]]⟩ [[(0 : ℝ)]] [[(0 : ℝ)]] 1 ≠
      addA (reverse_delta ⟨1, none⟩ [[(0 : ℝ)]] [[(0 : ℝ)]] 1) [[(1 : ℝ)]] := by
  refine ⟨rfl, ?_⟩
  norm_num [reverse_delta, addA, zipWith2, map2]

/-- C8 amended: when `penalty_arr` is set it is added to the clipped
difference in `compute_loss` and to the clipped delta in `compute_delta`,
but `reverse_delta` does not use it at all. -/
theorem claim8_amended_penalty_addition (t : ℝ) (p : Arr)
    (pred_arr labeled_arr delta_arr : Arr) (axis : Option (Fin 2))
    (delta_output : ℝ) (hb : 0 < labeled_arr.length) :
    compute_loss ⟨t, some p⟩ pred_arr labeled_arr axis =
      some (npMean axis (map2 (fun x => x ^ 2)
        (addA (loss_clip t (loss_diff pred_arr labeled_arr)) p))) ∧
    compute_delta ⟨t, some p⟩ pred_arr labeled_arr delta_output =
      some (addA (delta_clip t (delta_diff pred_arr labeled_arr delta_output)) p) ∧
    reverse_delta ⟨t, some p⟩ delta_arr labeled_arr delta_output =
      reverse_delta ⟨t, none⟩ delta_arr labeled_arr delta_output := by
  refine ⟨?_, ?_, rfl⟩
  · rw [compute_loss, if_neg hb.ne']
    rfl
  · rw [compute_delta, if_neg hb.ne']
    rfl

/-- Witness for the amended C8 at a concrete input. -/
theorem claim8_witness :
    0 < ([[(0 : ℝ)]] : Arr).length ∧
    (compute_loss ⟨1, some [[(2 : ℝ)]]⟩ [[(0 : ℝ)]] [[(0 : ℝ)]] none =
       some (npMean none (map2 (fun x => x ^ 2)
         (addA (loss_clip 1 (loss_diff [[(0 : ℝ)]] [[(0 : ℝ)]])) [[(2 : ℝ)]]))) ∧
     compute_delta ⟨1, some [[(2 : ℝ)]]⟩ [[(0 : ℝ)]] [[(0 : ℝ)]] 1 =
       some (addA (delta_clip 1 (delta_diff [[(0 : ℝ)]] [[(0 : ℝ)]] 1)) [[(2 : ℝ)]]) ∧
     reverse_delta ⟨1, some [[(2 : ℝ)]]⟩ [[(3 : ℝ)]] [[(0 : ℝ)]] 1 =
       reverse_delta ⟨1, none⟩ [[(3 : ℝ)]] [[(0 : ℝ)]] 1) :=
  ⟨by decide, claim8_amended_penalty_addition 1 [[(2 : ℝ)]] [[(0 : ℝ)]] [[(0 : ℝ)]]
    [[(3 : ℝ)]] none 1 (by decide)⟩

/-! Round-trip lemmas for C9. -/

lemma zip_add_map_sub_row (f : ℝ → ℝ) (hf : ∀ x y, f (x - y) + y = x) :
    ∀ (r s : List ℝ), r.length = s.length →
      List.zipWith (fun x y => x + y)
        (List.map f (List.zipWith (fun x y => x - y) r s)) s = r := by
  intro r
  induction r with
  | nil =>
    intro s _
    rfl
  | cons x r ih =>
    intro s h
    cases s with
    | nil => simp at h
    | cons y s =>
      have h' : r.length = s.length := by simpa using h
      simp only [List.zipWith_cons_cons, List.map_cons, List.cons.injEq]
      exact ⟨hf x y, ih s h'⟩

lemma addA_map2_sub (f : ℝ → ℝ) (hf : ∀ x y, f (x - y) + y = x) :
    ∀ (a b : Arr), shapeOf a = shapeOf b → addA (map2 f (sub a b)) b = a := by
  intro a
  induction a with
  | nil =>
    intro b _
    rfl
  | cons r a ih =>
    intro b h
    cases b with
    | nil => simp [shapeOf] at h
    | cons s b =>
      simp only [shapeOf, List.map_cons, List.cons.injEq] at h
      have hcons : addA (map2 f (sub (r :: a) (s :: b))) (s :: b) =
          (List.zipWith (fun x y => x + y)
            (List.map f (List.zipWith (fun x y => x - y) r s)) s) ::
          addA (map2 f (sub a b)) b := rfl
      rw [hcons, zip_add_map_sub_row f hf r s h.1, ih b h.2]

/-- C9.  Exact round trip in the unclipped, unpenalized case: with no
penalty, `delta_output = 1` and the raw delta within the clip threshold,
`reverse_delta` applied to the result of `compute_delta` recovers `pred_arr`
exactly. -/
theorem claim9_round_trip (t : ℝ) (pred_arr labeled_arr : Arr)
    (hshape : sameShape pred_arr labeled_arr) (hb : 0 < labeled_arr.length)
    (hn : norm (delta_diff pred_arr labeled_arr 1) ≤ t) :
    ∃ d, compute_delta ⟨t, none⟩ pred_arr labeled_arr 1 = some d ∧
      reverse_delta ⟨t, none⟩ d labeled_arr 1 = pred_arr := by
  have hbR : ((labeled_arr.length : ℝ)) ≠ 0 := Nat.cast_ne_zero.mpr hb.ne'
  refine ⟨delta_diff pred_arr labeled_arr 1, ?_, ?_⟩
  · rw [compute_delta, if_neg hb.ne']
    have hclip : delta_clip t (delta_diff pred_arr labeled_arr 1) =
        delta_diff pred_arr labeled_arr 1 := by
      rw [delta_clip, if_neg (not_lt.mpr hn)]
    simp only [addPenalty]
    rw [hclip]
  · rw [reverse_delta, delta_diff, map2_map2]
    refine addA_map2_sub _ ?_ pred_arr labeled_arr hshape
    intro x y
    field_simp

/-- Witness for C9 at a concrete input. -/
theorem claim9_witness :
    sameShape [[(0 : ℝ)]] [[(0 : ℝ)]] ∧ 0 < ([[(0 : ℝ)]] : Arr).length ∧
    norm (delta_diff [[(0 : ℝ)]] [[(0 : ℝ)]] 1) ≤ 10 ∧
    (∃ d, compute_delta ⟨10, none⟩ [[(0 : ℝ)]] [[(0 : ℝ)]] 1 = some d ∧
      reverse_delta ⟨10, none⟩ d [[(0 : ℝ)]] 1 = [[(0 : ℝ)]]) := by
  refine ⟨by decide, by decide, ?_, ?_⟩
  · norm_num [delta_diff, sub, zipWith2, map2, norm, sumsq, Real.sqrt_zero]
  · exact claim9_round_trip 10 [[(0 : ℝ)]] [[(0 : ℝ)]] (by decide) (by decide)
      (by norm_num [delta_diff, sub, zipWith2, map2, norm, sumsq, Real.sqrt_zero])

/-- C10.  The division by `batch_size` is unguarded in the source: in the
guarded embedding, whenever the leading dimension of `labeled_arr` is zero
both `compute_loss` and `compute_delta` hit the error branch. -/
theorem claim10_division_guard (m : MeanSquaredError) (pred_arr labeled_arr : Arr)
    (axis : Option (Fin 2)) (delta_output : ℝ) (hb : labeled_arr.length = 0) :
    compute_loss m pred_arr labeled_arr axis = none ∧
    compute_delta m pred_arr labeled_arr delta_output = none :=
  ⟨by rw [compute_loss, if_pos hb], by rw [compute_delta, if_pos hb]⟩

/-- Witness for C10 at a concrete input (an empty labeled array). -/
theorem claim10_witness :
    ([] : Arr).length = 0 ∧
    (compute_loss ⟨1, none⟩ [[(1 : ℝ)]] [] none = none ∧
     compute_delta ⟨1, none⟩ [[(1 : ℝ)]] [] 1 = none) :=
  ⟨rfl, claim10_division_guard ⟨1, none⟩ [[(1 : ℝ)]] [] none 1 rfl⟩

end MSE
